import Mathlib

/-!
Shallow embedding of the task-management core of the `agile-project`
repository (source files `src/utils/task-utils.js`, `src/utils/local-storage.js`
and `src/hooks/use-task-manager.js`), together with proofs about the
specification's claims.

Modelling conventions:
* JavaScript strings are Lean `String`s; the character-level operations the
  code uses (`trim`, `toLowerCase`, `.length`, `includes`, lexicographic
  compare) are defined over the underlying `List Char` (`String.data`), so
  everything evaluates by kernel reduction.  JS `.length` counts UTF-16 units,
  which agrees with the character count on the inputs involved here.
* `createdAt` timestamps are modelled as integer instants (the spec's
  "ISO-8601 string or equivalent"); `new Date(x) - new Date(y)` becomes
  integer subtraction, and `new Date().toISOString()` becomes a `now : Int`
  parameter of the manager operation.
* JS objects that may lack fields (drafts, records read before validation)
  are structures of `Option` fields, `none` standing for an absent field.
* Fallible paths (a thrown `TypeError`) are `Except Unit`.
* `uuidv4()` is a `freshId : String` parameter of the manager operation.
* React's `setTasks` state updates are modelled as explicit state passing:
  each manager operation maps the current collection to the next collection
  plus the returned result object.
-/

namespace AgileTasks

/-! ## Character-level string helpers (JS `trim`, `toLowerCase`, `includes`) -/

/-- Whitespace test used by JS `String.prototype.trim` (ASCII fragment). -/
def isWsChar (c : Char) : Bool :=
  c == ' ' || c == '\t' || c == '\n' || c == '\r'

/-- JS `s.trim()` over the character sequence. -/
def trimChars (s : List Char) : List Char :=
  ((s.dropWhile isWsChar).reverse.dropWhile isWsChar).reverse

/-- JS `s.toLowerCase()` over the character sequence, as code points. -/
def lowerNats (s : List Char) : List Nat :=
  s.map (fun c => c.toLower.toNat)

/-- Whitespace test on code points (the image of `isWsChar`). -/
def isWsNat (n : Nat) : Bool :=
  n == 32 || n == 9 || n == 10 || n == 13

/-- JS `.trim()` on a code-point sequence (used after `toLowerCase`, which
leaves whitespace unchanged). -/
def trimNats (s : List Nat) : List Nat :=
  ((s.dropWhile isWsNat).reverse.dropWhile isWsNat).reverse

/-- Does `s` start with `sub`?  (Helper for JS `includes`.) -/
def startsWithChars : List Nat → List Nat → Bool
  | [], _ => true
  | _ :: _, [] => false
  | a :: as, b :: bs => a == b && startsWithChars as bs

/-- JS `s.includes(sub)` (substring containment; `includes("")` is `true`). -/
def hasSubstr (sub : List Nat) : List Nat → Bool
  | [] => sub.isEmpty
  | c :: cs => startsWithChars sub (c :: cs) || hasSubstr sub cs

/-- Three-way lexicographic comparison of code-point sequences, the model of
`a.toLowerCase().localeCompare(b.toLowerCase())` (sign is all that is used). -/
def cmpNats : List Nat → List Nat → Int
  | [], [] => 0
  | [], _ :: _ => -1
  | _ :: _, [] => 1
  | a :: as, b :: bs =>
    if a < b then -1 else if b < a then 1 else cmpNats as bs

/-! ## Data model (`src/utils/task-utils.js`, §3 of the spec) -/

/-- The three canonical priorities. -/
inductive Priority where
  | High
  | Medium
  | Low
deriving DecidableEq, Repr

/-- `PRIORITY_ORDER = { High: 3, Medium: 2, Low: 1 }`. -/
def PRIORITY_ORDER : Priority → Int
  | .High => 3
  | .Medium => 2
  | .Low => 1

def priorityToString : Priority → String
  | .High => "High"
  | .Medium => "Medium"
  | .Low => "Low"

def priorityFromString (s : String) : Option Priority :=
  if s = "High" then some .High
  else if s = "Medium" then some .Medium
  else if s = "Low" then some .Low
  else none

/-- A validated task record held in the manager's collection.  `description`
is optional: `addTask` does not default it, so a record created from a draft
without a description simply lacks the field. -/
structure Task where
  id : String
  title : String
  description : Option String
  priority : Priority
  completed : Bool
  createdAt : Int
deriving DecidableEq, Repr

/-- A raw JS object as seen by `validateTask` and `filterTasks`: every field
may be absent.  Values, when present, are well-typed (the `typeof` string
checks of the source never fire on this model). -/
structure RawTask where
  id? : Option String := none
  title? : Option String := none
  description? : Option String := none
  priority? : Option String := none
  completed? : Option Bool := none
  createdAt? : Option Int := none
deriving DecidableEq, Repr

/-- View of a validated record as the raw object passed to `validateTask`
when an update re-validates the merged record. -/
def Task.toRaw (t : Task) : RawTask :=
  { id? := some t.id
    title? := some t.title
    description? := t.description
    priority? := some (priorityToString t.priority)
    completed? := some t.completed
    createdAt? := some t.createdAt }

/-! ## Validator (`validateTask`, task-utils.js lines 69-107) -/

/-- `validateTask(task)`: the ordered list of error messages pushed by the
source.  `none` input is the JS `!task` branch.  The `typeof description`
check and the `createdAt` date-validity check never fire here because the
model's values are well-typed strings and valid instants. -/
def validateTask (task? : Option RawTask) : List String :=
  match task? with
  | none => ["Task object is required"]
  | some t =>
    (match t.title? with
     | none => ["Title is required and must be a non-empty string"]
     | some s =>
       if s.data = [] ∨ (trimChars s.data).length = 0 then
         ["Title is required and must be a non-empty string"]
       else []) ++
    (match t.title? with
     | none => []
     | some s =>
       if ¬ s.data = [] ∧ s.data.length > 100 then
         ["Title must be 100 characters or less"]
       else []) ++
    (match t.description? with
     | none => []
     | some d =>
       if ¬ d.data = [] ∧ d.data.length > 500 then
         ["Description must be 500 characters or less"]
       else []) ++
    (match t.priority? with
     | none => ["Priority must be High, Medium, or Low"]
     | some p =>
       if p = "High" ∨ p = "Medium" ∨ p = "Low" then []
       else ["Priority must be High, Medium, or Low"]) ++
    (match t.completed? with
     | none => ["Completed must be a boolean value"]
     | some _ => [])

/-- The `isValid` flag of the source's returned object. -/
def taskIsValid (task? : Option RawTask) : Bool :=
  (validateTask task?).isEmpty

/-! ## Query Engine: sorting (`sortTasks`, task-utils.js lines 30-61) -/

/-- The sort criteria of `SORT_OPTIONS`, plus the `default` switch branch for
any other string (`unknown`). -/
inductive SortKey where
  | created
  | priority
  | progress
  | title
  | unknown
deriving DecidableEq, Repr

/-- `SORT_ORDERS = { ASC: "asc", DESC: "desc" }`. -/
inductive SortOrder where
  | asc
  | desc
deriving DecidableEq, Repr

/-- The value each comparator branch derives from a record: an integer
(instant, priority weight, completion indicator, or `0` for the `default`
branch) or a lowercased code-point sequence for `title`. -/
def keyView (k : SortKey) (t : Task) : Int ⊕ List Nat :=
  match k with
  | .created => .inl t.createdAt
  | .priority => .inl (PRIORITY_ORDER t.priority)
  | .progress => .inl (if t.completed then 1 else 0)
  | .title => .inr (lowerNats t.title.data)
  | .unknown => .inl 0

/-- Three-way comparison of derived key values (integer difference, or
lexicographic compare); the two mixed branches are unreachable for a fixed
sort key. -/
def cmpKey : Int ⊕ List Nat → Int ⊕ List Nat → Int
  | .inl a, .inl b => a - b
  | .inr a, .inr b => cmpNats a b
  | .inl _, .inr _ => -1
  | .inr _, .inl _ => 1

/-- The `comparison` value computed by the source's `switch (sortBy)`. -/
def baseCmp (k : SortKey) (a b : Task) : Int :=
  match k with
  | .created => a.createdAt - b.createdAt
  | .priority => PRIORITY_ORDER a.priority - PRIORITY_ORDER b.priority
  | .progress => (if a.completed then 1 else 0) - (if b.completed then 1 else 0)
  | .title => cmpNats (lowerNats a.title.data) (lowerNats b.title.data)
  | .unknown => 0

/-- `return sortOrder === SORT_ORDERS.ASC ? comparison : -comparison`. -/
def taskCmp (k : SortKey) (o : SortOrder) (a b : Task) : Int :=
  match o with
  | .asc => baseCmp k a b
  | .desc => -(baseCmp k a b)

/-- Insert into a sorted list, placing the new element before the first
element it compares `≤ 0` against (so it lands *before* later-arriving ties,
matching a stable sort). -/
def insertSorted (c : Task → Task → Int) (x : Task) : List Task → List Task
  | [] => [x]
  | y :: ys => if c x y ≤ 0 then x :: y :: ys else y :: insertSorted c x ys

/-- Stable insertion sort by a three-way comparator. -/
def isortBy (c : Task → Task → Int) : List Task → List Task
  | [] => []
  | x :: xs => insertSorted c x (isortBy c xs)

/-- `sortTasks(tasks, sortBy, sortOrder)`: `[...tasks].sort(comparator)`.
`Array.prototype.sort` is stable (ES2019) and the spread copies the input
first, so the model is a pure stable sort of the input list. -/
def sortTasks (tasks : List Task) (sortBy : SortKey := .created)
    (sortOrder : SortOrder := .desc) : List Task :=
  isortBy (taskCmp sortBy sortOrder) tasks

/-! ## Query Engine: filtering (`filterTasks`, task-utils.js lines 158-167) -/

/-- The `tasks` argument of `filterTasks` as a JS value: an array of raw
records, or any non-array value. -/
inductive FilterInput where
  | arr (tasks : List RawTask)
  | nonArray
deriving DecidableEq, Repr

/-- JS falsiness of an optional string (`undefined` and `""` are falsy). -/
def strFalsy : Option String → Bool
  | none => true
  | some s => s.data.isEmpty

/-- The predicate of the source's `tasks.filter(...)`, for one record:
`task.title.toLowerCase().includes(term) ||
 (task.description && task.description.toLowerCase().includes(term))`.
Reading `.toLowerCase` off an absent `title` is a thrown `TypeError`,
modelled as `Except.error ()`. -/
def filterPred (term : List Nat) (t : RawTask) : Except Unit Bool :=
  match t.title? with
  | none => .error ()
  | some ti =>
    .ok (hasSubstr term (lowerNats ti.data) ||
      (match t.description? with
       | none => false
       | some d => !d.data.isEmpty && hasSubstr term (lowerNats d.data)))

/-- `Array.prototype.filter` with a fallible predicate (evaluated left to
right; the first thrown error aborts the whole call). -/
def filterStep (term : List Nat) : List RawTask → Except Unit (List RawTask)
  | [] => .ok []
  | t :: ts => do
    let keep ← filterPred term t
    let rest ← filterStep term ts
    .ok (if keep then t :: rest else rest)

/-- `filterTasks(tasks, searchTerm)`: pass-through on a falsy search term or
a non-array input, otherwise filter by
`term = searchTerm.toLowerCase().trim()`. -/
def filterTasks (tasks : FilterInput) (searchTerm : Option String) :
    Except Unit FilterInput :=
  if strFalsy searchTerm then .ok tasks
  else
    match tasks with
    | .nonArray => .ok tasks
    | .arr l =>
      let term := trimNats (lowerNats ((searchTerm.getD "").data))
      (filterStep term l).map .arr

/-! ## Query Engine: statistics (`getTaskStats`, task-utils.js lines 174-224) -/

/-- The statistics object returned by `getTaskStats` (the accumulator plus
the `completionRate` added after the reduce). -/
structure TaskStats where
  total : Nat
  completed : Nat
  pending : Nat
  highPriority : Nat
  mediumPriority : Nat
  lowPriority : Nat
  completionRate : ℚ
deriving DecidableEq, Repr

/-- One step of the source's `tasks.reduce` (counts only; `completionRate`
is written afterwards). -/
def statsStep (acc : TaskStats) (t : Task) : TaskStats :=
  { acc with
    total := acc.total + 1
    completed := acc.completed + (if t.completed then 1 else 0)
    pending := acc.pending + (if t.completed then 0 else 1)
    highPriority := acc.highPriority + (if t.priority = .High then 1 else 0)
    mediumPriority := acc.mediumPriority + (if t.priority = .Medium then 1 else 0)
    lowPriority := acc.lowPriority + (if t.priority = .Low then 1 else 0) }

/-- `getTaskStats(tasks)`.  JS number arithmetic is modelled exactly (the
completion rate as a rational); the non-array early return is the same
all-zero object the reduce yields on `[]`. -/
def getTaskStats (tasks : List Task) : TaskStats :=
  let s := tasks.foldl statsStep ⟨0, 0, 0, 0, 0, 0, 0⟩
  { s with
    completionRate :=
      if s.total > 0 then ((s.completed : ℚ) / (s.total : ℚ)) * 100 else 0 }

/-! ## Persistence Adapter (`local-storage.js`)

`localStorage` holds one slot under `STORAGE_KEY = "tasks"`.  The stored
string is the `JSON.stringify` image of a JSON value; since
`JSON.parse(JSON.stringify(v)) = v` for JSON trees, the slot is modelled as
the JSON tree itself (`none` = slot absent). -/

/-- JSON values. -/
inductive Json where
  | null
  | bool (b : Bool)
  | num (n : Int)
  | str (s : String)
  | arr (items : List Json)
  | obj (fields : List (String × Json))

/-- The single persistence slot. -/
def Store := Option Json

/-- `saveTasks(tasks)`: reject non-arrays (`console.error`, return `false`),
otherwise serialize into the slot and return `true`. -/
def saveTasks (tasks : Json) (store : Store) : Bool × Store :=
  match tasks with
  | .arr _ => (true, some tasks)
  | _ => (false, store)

/-- `loadTasks()`: empty array when the slot is absent or the parsed value
is not an array, otherwise the stored array's elements. -/
def loadTasks (store : Store) : List Json :=
  match store with
  | none => []
  | some (.arr items) => items
  | some _ => []

/-- First match of a key among a JS object's fields. -/
def jLookup : List (String × Json) → String → Option Json
  | [], _ => none
  | (k, v) :: fs, key => if k = key then some v else jLookup fs key

/-- The JSON object `JSON.stringify` produces for a record
(`undefined`-valued fields, i.e. an absent `description`, are omitted). -/
def taskToJson (t : Task) : Json :=
  .obj ([("id", .str t.id), ("title", .str t.title)] ++
    (match t.description with
     | some d => [("description", .str d)]
     | none => []) ++
    [("priority", .str (priorityToString t.priority)),
     ("completed", .bool t.completed),
     ("createdAt", .num t.createdAt)])

/-- Structural inverse of `taskToJson`: reads a record back out of its JSON
image, field by field. -/
def taskFromJson (j : Json) : Option Task :=
  match j with
  | .obj fs =>
    match jLookup fs "id", jLookup fs "title", jLookup fs "priority",
        jLookup fs "completed", jLookup fs "createdAt" with
    | some (.str i), some (.str ti), some (.str p), some (.bool c),
        some (.num n) =>
      (priorityFromString p).map (fun pr =>
        { id := i
          title := ti
          description :=
            match jLookup fs "description" with
            | some (.str d) => some d
            | _ => none
          priority := pr
          completed := c
          createdAt := n })
    | _, _, _, _, _ => none
  | _ => none

/-- Decode a stored array element-wise. -/
def decodeTasks : List Json → Option (List Task)
  | [] => some []
  | j :: js =>
    match taskFromJson j, decodeTasks js with
    | some t, some ts => some (t :: ts)
    | _, _ => none

/-! ## Task Manager (`use-task-manager.js`)

Each operation maps the current collection to the next collection together
with the returned result object.  Persistence is a separate effect (the
auto-save `useEffect`) and is not part of the returned pair. -/

/-- `{ success: true, task }` / `{ success: false, error }` of
`addTask`/`updateTask`/`toggleTask`. -/
inductive TaskResult where
  | ok (task : Task)
  | err (msg : String)
deriving DecidableEq, Repr

/-- `deleteTask`'s result (`{ success: true }` carries no task). -/
inductive DeleteResult where
  | ok
  | err (msg : String)
deriving DecidableEq, Repr

/-- `validation.errors.join(", ")`. -/
def joinErrors (errs : List String) : String :=
  String.intercalate ", " errs

/-- A partial patch object for `updateTask`: present fields override the
existing record's fields — including `id` and `createdAt`.
(`description? := some none` would be an explicit `undefined`; unused.) -/
structure TaskPatch where
  id? : Option String := none
  title? : Option String := none
  description? : Option (Option String) := none
  priority? : Option Priority := none
  completed? : Option Bool := none
  createdAt? : Option Int := none

/-- `{ ...prevTasks[taskIndex], ...updates }` for an object patch. -/
def mergePatch (t : Task) (p : TaskPatch) : Task :=
  { id := p.id?.getD t.id
    title := p.title?.getD t.title
    description := p.description?.getD t.description
    priority := p.priority?.getD t.priority
    completed := p.completed?.getD t.completed
    createdAt := p.createdAt?.getD t.createdAt }

/-- The `updates` argument of `updateTask`.  `toggleTask` passes an *updater
function*; object spread of a function value contributes no enumerable own
properties, so `{ ...task, ...f }` is just a copy of `task`. -/
inductive Updates where
  | patch (p : TaskPatch)
  | updater (f : Task → TaskPatch)

/-- `updatedTask = { ...prevTasks[taskIndex], ...updates }`. -/
def applyUpdates (t : Task) : Updates → Task
  | .patch p => mergePatch t p
  | .updater _ => t

/-- `Array.prototype.findIndex`, tracking the running index. -/
def findIndexFrom (p : Task → Bool) : List Task → Nat → Option Nat
  | [], _ => none
  | t :: ts, i => if p t then some i else findIndexFrom p ts (i + 1)

/-- `prevTasks.findIndex((task) => task.id === taskId)`. -/
def findTaskIndex (tasks : List Task) (taskId : String) : Option Nat :=
  findIndexFrom (fun t => t.id == taskId) tasks 0

/-- `updateTask(taskId, updates)`: locate, merge, re-validate, replace in
place; a missing id or failed validation throws inside the updater, which
the `catch` turns into a failure result with the collection untouched. -/
def updateTask (tasks : List Task) (taskId : String) (updates : Updates) :
    List Task × TaskResult :=
  match findTaskIndex tasks taskId with
  | none => (tasks, .err "Task not found")
  | some i =>
    match tasks[i]? with
    | none => (tasks, .err "Task not found")
    | some old =>
      let updatedTask := applyUpdates old updates
      let errs := validateTask (some updatedTask.toRaw)
      if errs.isEmpty then (tasks.set i updatedTask, .ok updatedTask)
      else (tasks, .err (joinErrors errs))

/-- `deleteTask(taskId)`: not-found failure when no record matches,
otherwise `prevTasks.filter((task) => task.id !== taskId)`. -/
def deleteTask (tasks : List Task) (taskId : String) :
    List Task × DeleteResult :=
  if tasks.any (fun t => t.id == taskId) then
    (tasks.filter (fun t => !(t.id == taskId)), .ok)
  else
    (tasks, .err "Task not found")

/-- `toggleTask(taskId)`: calls `updateTask` with an updater function that
flips `completed` — but `updateTask` object-spreads its `updates` argument,
so the function contributes nothing. -/
def toggleTask (tasks : List Task) (taskId : String) :
    List Task × TaskResult :=
  updateTask tasks taskId
    (.updater (fun prevTask => { completed? := some (!prevTask.completed) }))

/-- The caller-supplied draft of `addTask` (`taskData`). -/
structure TaskDraft where
  id? : Option String := none
  title? : Option String := none
  description? : Option String := none
  priority? : Option String := none
  completed? : Option Bool := none
  createdAt? : Option Int := none
deriving DecidableEq, Repr

/-- `newTask = { id: uuidv4(), ...taskData, completed: false,
createdAt: new Date().toISOString() }`: a draft-supplied `id` overrides the
fresh one (spread comes after), while `completed` and `createdAt` are
written after the spread and therefore always win. -/
def buildNewTask (freshId : String) (now : Int) (d : TaskDraft) : RawTask :=
  { id? := some (d.id?.getD freshId)
    title? := d.title?
    description? := d.description?
    priority? := d.priority?
    completed? := some false
    createdAt? := some now }

/-- Read a raw record that passed validation back as a `Task` (validation
guarantees the required fields are present and the priority canonical). -/
def rawToTask (r : RawTask) : Option Task :=
  match r.id?, r.title?, r.priority?, r.completed?, r.createdAt? with
  | some i, some ti, some p, some c, some n =>
    (priorityFromString p).map (fun pr =>
      { id := i
        title := ti
        description := r.description?
        priority := pr
        completed := c
        createdAt := n })
  | _, _, _, _, _ => none

/-- `addTask(taskData)`: build the new record, validate, and append on
success.  `uuidv4()` and `new Date()` are the `freshId`/`now` parameters. -/
def addTask (freshId : String) (now : Int) (tasks : List Task)
    (draft : TaskDraft) : List Task × TaskResult :=
  let newTask := buildNewTask freshId now draft
  let errs := validateTask (some newTask)
  if errs.isEmpty then
    match rawToTask newTask with
    | some t => (tasks ++ [t], .ok t)
    | none => (tasks, .err "Failed to add task")
  else
    (tasks, .err (joinErrors errs))

/-! ## Concrete records used by counterexamples and witnesses -/

def sampleTask : Task :=
  { id := "t1", title := "Buy milk", description := none,
    priority := .High, completed := false, createdAt := 0 }

def sampleTask2 : Task :=
  { id := "t2", title := "Clean desk", description := some "office",
    priority := .Low, completed := true, createdAt := 5 }

/-- 101 leading spaces and one letter: raw length 102, trimmed length 1. -/
def longPaddedTitle : String := String.mk (List.replicate 101 ' ' ++ ['a'])

def draftWithId : TaskDraft :=
  { id? := some "caller-id", title? := some "Buy milk",
    priority? := some "High" }

/-- The record `addTask "fresh-1" 5 [] draftWithId` creates: its id is the
draft's, not the fresh one. -/
def callerIdTask : Task :=
  { id := "caller-id", title := "Buy milk", description := none,
    priority := .High, completed := false, createdAt := 5 }

/-- A raw record whose title is the whitespace-padded `longPaddedTitle`. -/
def paddedTitleRaw : RawTask :=
  { title? := some longPaddedTitle, priority? := some "High",
    completed? := some false }

/-- A raw record whose title is 101 copies of `a` (no padding). -/
def longPlainRaw : RawTask :=
  { title? := some (String.mk (List.replicate 101 'a')) }

/-! # Theorems -/

/-! ## Comparator facts -/

theorem cmpNats_self (a : List Nat) : cmpNats a a = 0 := by
  induction a with
  | nil => rfl
  | cons x xs ih => simp [cmpNats, ih]

theorem cmpNats_neg (a b : List Nat) : cmpNats a b = -cmpNats b a := by
  induction a generalizing b with
  | nil => cases b <;> simp [cmpNats]
  | cons x xs ih =>
    cases b with
    | nil => simp [cmpNats]
    | cons y ys =>
      rcases Nat.lt_trichotomy x y with h | h | h
      · simp [cmpNats, h, Nat.lt_asymm h]
      · subst h
        simpa [cmpNats, Nat.lt_irrefl] using ih ys
      · simp [cmpNats, h, Nat.lt_asymm h]

theorem cmpNats_eq_zero : ∀ {a b : List Nat}, cmpNats a b = 0 → a = b := by
  intro a
  induction a with
  | nil => intro b h; cases b <;> simp_all [cmpNats]
  | cons x xs ih =>
    intro b h
    cases b with
    | nil => simp [cmpNats] at h
    | cons y ys =>
      simp only [cmpNats] at h
      rcases Nat.lt_trichotomy x y with h1 | h1 | h1
      · rw [if_pos h1] at h
        exact absurd h (by decide)
      · subst h1
        rw [if_neg (Nat.lt_irrefl x), if_neg (Nat.lt_irrefl x)] at h
        simp [ih h]
      · rw [if_neg (Nat.lt_asymm h1), if_pos h1] at h
        exact absurd h (by decide)

theorem cmpNats_trans : ∀ {a b c : List Nat},
    cmpNats a b ≤ 0 → cmpNats b c ≤ 0 → cmpNats a c ≤ 0 := by
  intro a
  induction a with
  | nil => intro b c _ _; cases c <;> simp [cmpNats]
  | cons x xs ih =>
    intro b c h1 h2
    cases b with
    | nil => simp [cmpNats] at h1
    | cons y ys =>
      cases c with
      | nil => simp [cmpNats] at h2
      | cons z zs =>
        simp only [cmpNats] at h1 h2 ⊢
        split_ifs at h1 h2 ⊢ <;> first | omega | exact ih h1 h2

theorem cmpKey_self (u : Int ⊕ List Nat) : cmpKey u u = 0 := by
  cases u with
  | inl a => simp [cmpKey]
  | inr a => simp [cmpKey, cmpNats_self]

theorem cmpKey_neg (u v : Int ⊕ List Nat) : cmpKey u v = -cmpKey v u := by
  cases u with
  | inl a =>
    cases v with
    | inl b => simp only [cmpKey]; omega
    | inr b => simp [cmpKey]
  | inr a =>
    cases v with
    | inl b => simp [cmpKey]
    | inr b => simpa [cmpKey] using cmpNats_neg a b

theorem cmpKey_eq_zero : ∀ {u v : Int ⊕ List Nat}, cmpKey u v = 0 → u = v := by
  intro u v h
  cases u <;> cases v <;> simp_all [cmpKey]
  · omega
  · exact cmpNats_eq_zero h

theorem cmpKey_trans : ∀ {u v w : Int ⊕ List Nat},
    cmpKey u v ≤ 0 → cmpKey v w ≤ 0 → cmpKey u w ≤ 0 := by
  intro u v w h1 h2
  cases u <;> cases v <;> cases w <;> simp_all [cmpKey]
  · omega
  · exact cmpNats_trans h1 h2

theorem baseCmp_eq_cmpKey (k : SortKey) (a b : Task) :
    baseCmp k a b = cmpKey (keyView k a) (keyView k b) := by
  cases k <;> simp [baseCmp, cmpKey, keyView]

theorem taskCmp_total {k : SortKey} {o : SortOrder} {a b : Task}
    (h : ¬ taskCmp k o a b ≤ 0) : taskCmp k o b a ≤ 0 := by
  cases o <;> simp only [taskCmp, baseCmp_eq_cmpKey] at h ⊢ <;>
    (rw [cmpKey_neg (keyView k b) (keyView k a)]; omega)

theorem taskCmp_trans {k : SortKey} {o : SortOrder} {a b c : Task}
    (h1 : taskCmp k o a b ≤ 0) (h2 : taskCmp k o b c ≤ 0) :
    taskCmp k o a c ≤ 0 := by
  cases o <;> simp only [taskCmp, baseCmp_eq_cmpKey] at h1 h2 ⊢
  · exact cmpKey_trans h1 h2
  · rw [cmpKey_neg] at h1 h2 ⊢
    have h1' : cmpKey (keyView k b) (keyView k a) ≤ 0 := by omega
    have h2' : cmpKey (keyView k c) (keyView k b) ≤ 0 := by omega
    have := cmpKey_trans h2' h1'
    omega

theorem taskCmp_zero_of_ties {k : SortKey} {o : SortOrder} {v x y : Task}
    (hx : baseCmp k x v = 0) (hy : baseCmp k y v = 0) :
    taskCmp k o x y ≤ 0 := by
  rw [baseCmp_eq_cmpKey] at hx hy
  have ex := cmpKey_eq_zero hx
  have ey := cmpKey_eq_zero hy
  cases o <;> simp only [taskCmp, baseCmp_eq_cmpKey, ex, ey, cmpKey_self] <;> omega

/-! ## Stable-sort lemmas -/

theorem insertSorted_perm (c : Task → Task → Int) (x : Task) (l : List Task) :
    List.Perm (insertSorted c x l) (x :: l) := by
  induction l with
  | nil => exact List.Perm.refl _
  | cons y ys ih =>
    by_cases h : c x y ≤ 0
    · simp [insertSorted, h]
    · simp only [insertSorted, if_neg h]
      exact (List.Perm.cons y ih).trans (List.Perm.swap x y ys)

theorem isortBy_perm (c : Task → Task → Int) (l : List Task) :
    List.Perm (isortBy c l) l := by
  induction l with
  | nil => exact List.Perm.refl _
  | cons x xs ih =>
    exact (insertSorted_perm c x (isortBy c xs)).trans (List.Perm.cons x ih)

theorem insertSorted_sorted (c : Task → Task → Int)
    (htot : ∀ a b, ¬ c a b ≤ 0 → c b a ≤ 0)
    (htrans : ∀ {a b d}, c a b ≤ 0 → c b d ≤ 0 → c a d ≤ 0)
    (x : Task) (l : List Task) (hl : l.Pairwise (fun a b => c a b ≤ 0)) :
    (insertSorted c x l).Pairwise (fun a b => c a b ≤ 0) := by
  induction l with
  | nil => simp [insertSorted]
  | cons y ys ih =>
    rcases List.pairwise_cons.mp hl with ⟨hy, hys⟩
    by_cases h : c x y ≤ 0
    · simp only [insertSorted, if_pos h]
      refine List.pairwise_cons.mpr ⟨?_, hl⟩
      intro z hz
      rcases List.mem_cons.mp hz with rfl | hz
      · exact h
      · exact htrans h (hy z hz)
    · simp only [insertSorted, if_neg h]
      refine List.pairwise_cons.mpr ⟨?_, ih hys⟩
      intro z hz
      rcases List.mem_cons.mp ((insertSorted_perm c x ys).mem_iff.mp hz) with
        rfl | hz'
      · exact htot _ y h
      · exact hy z hz'

theorem isortBy_sorted (c : Task → Task → Int)
    (htot : ∀ a b, ¬ c a b ≤ 0 → c b a ≤ 0)
    (htrans : ∀ {a b d}, c a b ≤ 0 → c b d ≤ 0 → c a d ≤ 0)
    (l : List Task) :
    (isortBy c l).Pairwise (fun a b => c a b ≤ 0) := by
  induction l with
  | nil => simp [isortBy]
  | cons x xs ih => exact insertSorted_sorted c htot htrans x _ ih

theorem isortBy_fix (c : Task → Task → Int) (l : List Task)
    (hl : l.Pairwise (fun a b => c a b ≤ 0)) : isortBy c l = l := by
  induction l with
  | nil => rfl
  | cons x xs ih =>
    rcases List.pairwise_cons.mp hl with ⟨hx, hxs⟩
    show insertSorted c x (isortBy c xs) = x :: xs
    rw [ih hxs]
    cases xs with
    | nil => rfl
    | cons y ys => simp [insertSorted, hx y (List.mem_cons_self y ys)]

theorem insertSorted_filter_pos (c : Task → Task → Int) (x : Task)
    (l : List Task) (p : Task → Bool) (hx : p x = true)
    (hcl : ∀ y, p y = true → c x y ≤ 0) :
    (insertSorted c x l).filter p = x :: l.filter p := by
  induction l with
  | nil => simp [insertSorted, hx]
  | cons y ys ih =>
    by_cases h : c x y ≤ 0
    · simp [insertSorted, h, List.filter_cons, hx]
    · have hpy : p y = false := by
        cases hy : p y with
        | false => rfl
        | true => exact absurd (hcl y hy) h
      simp [insertSorted, h, List.filter_cons, hpy, ih]

theorem insertSorted_filter_neg (c : Task → Task → Int) (x : Task)
    (l : List Task) (p : Task → Bool) (hx : p x = false) :
    (insertSorted c x l).filter p = l.filter p := by
  induction l with
  | nil => simp [insertSorted, hx]
  | cons y ys ih =>
    by_cases h : c x y ≤ 0
    · simp [insertSorted, h, List.filter_cons, hx]
    · simp [insertSorted, h, List.filter_cons, ih]

theorem isortBy_filter (c : Task → Task → Int) (l : List Task)
    (p : Task → Bool)
    (hp : ∀ x y, p x = true → p y = true → c x y ≤ 0) :
    (isortBy c l).filter p = l.filter p := by
  induction l with
  | nil => rfl
  | cons x xs ih =>
    cases hx : p x with
    | true =>
      show (insertSorted c x (isortBy c xs)).filter p = (x :: xs).filter p
      rw [insertSorted_filter_pos c x _ p hx (fun y hy => hp x y hx hy), ih]
      simp [List.filter_cons, hx]
    | false =>
      show (insertSorted c x (isortBy c xs)).filter p = (x :: xs).filter p
      rw [insertSorted_filter_neg c x _ p hx, ih]
      simp [List.filter_cons, hx]

theorem sortTasks_sorted (l : List Task) (k : SortKey) (o : SortOrder) :
    (sortTasks l k o).Pairwise (fun a b => taskCmp k o a b ≤ 0) :=
  isortBy_sorted (taskCmp k o) (fun _ _ h => taskCmp_total h)
    (fun h1 h2 => taskCmp_trans h1 h2) l

/-- C8.  `sortTasks` is a permutation of its input; it is stable (for every
reference record `v`, the run of records tying with `v` on the comparison
key is the same, in the same order, before and after sorting); sorting an
already-sorted input is the identity; and the descending sort's key sequence
is the exact reversal of the ascending sort's key sequence (so runs of
distinct keys are reversed while tie runs keep their input order).
Non-mutation of the input is inherent: the source copies with
`[...tasks]` before sorting, and the model is a pure function. -/
theorem sortTasks_stable_spec (l : List Task) (k : SortKey) (o : SortOrder) :
    List.Perm (sortTasks l k o) l ∧
    (∀ v : Task, (sortTasks l k o).filter (fun t => baseCmp k t v == 0) =
      l.filter (fun t => baseCmp k t v == 0)) ∧
    (List.map (keyView k) (sortTasks l k .desc) =
      (List.map (keyView k) (sortTasks l k .asc)).reverse) ∧
    (l.Pairwise (fun a b => taskCmp k o a b ≤ 0) → sortTasks l k o = l) := by
  refine ⟨isortBy_perm _ l, ?_, ?_, fun hl => isortBy_fix _ l hl⟩
  · intro v
    refine isortBy_filter _ l _ ?_
    intro x y hx hy
    exact taskCmp_zero_of_ties (eq_of_beq hx) (eq_of_beq hy)
  · have ha' : (List.map (keyView k) (sortTasks l k .asc)).Pairwise
        (fun u v => cmpKey u v ≤ 0) := by
      refine List.Pairwise.map _ ?_ (sortTasks_sorted l k .asc)
      intro a b hab
      simpa [taskCmp, baseCmp_eq_cmpKey] using hab
    have hd' : (List.map (keyView k) (sortTasks l k .desc)).Pairwise
        (fun u v => cmpKey v u ≤ 0) := by
      refine List.Pairwise.map _ ?_ (sortTasks_sorted l k .desc)
      intro a b hab
      simp only [taskCmp, baseCmp_eq_cmpKey] at hab
      rw [cmpKey_neg (keyView k b) (keyView k a)]
      omega
    have hdrev : ((List.map (keyView k) (sortTasks l k .desc)).reverse).Pairwise
        (fun u v => cmpKey u v ≤ 0) := List.pairwise_reverse.mpr hd'
    have hperm : List.Perm
        ((List.map (keyView k) (sortTasks l k .desc)).reverse)
        (List.map (keyView k) (sortTasks l k .asc)) :=
      ((List.reverse_perm _).trans ((isortBy_perm _ l).map _)).trans
        (((isortBy_perm _ l).map _).symm)
    haveI : IsAntisymm (Int ⊕ List Nat) (fun u v => cmpKey u v ≤ 0) := by
      refine ⟨fun u v h1 h2 => ?_⟩
      have hn := cmpKey_neg u v
      exact cmpKey_eq_zero (by omega)
    have heq := List.eq_of_perm_of_sorted hperm hdrev ha'
    rw [← heq, List.reverse_reverse]

/-! ## Manager lemmas and claims -/

/-- C1 (code bug).  Evaluating `toggleComplete` at a present id: the call
*succeeds* but returns the record with `completed` still `false` and the
collection unchanged — the updater function `toggleTask` passes is
object-spread by `updateTask`, contributing no fields, so the flip the
spec (and the function's own doc comment) promises never happens. -/
theorem toggleTask_does_not_flip :
    toggleTask [sampleTask] "t1" = ([sampleTask], .ok sampleTask) ∧
    sampleTask.completed = false := by decide

theorem findIndexFrom_eq_none (p : Task → Bool) (l : List Task) (i : Nat)
    (h : ∀ t ∈ l, p t = false) : findIndexFrom p l i = none := by
  induction l generalizing i with
  | nil => rfl
  | cons t ts ih =>
    simp only [findIndexFrom, h t (List.mem_cons_self t ts)]
    exact ih _ (fun t' ht' => h t' (List.mem_cons_of_mem _ ht'))

/-- C6.  When no record carries the requested id, `updateTask` and
`deleteTask` both return the structured not-found failure and leave the
collection exactly as it was. -/
theorem updateDelete_missing_id_noop (tasks : List Task) (taskId : String)
    (updates : Updates) (h : ∀ t ∈ tasks, ¬ t.id = taskId) :
    updateTask tasks taskId updates = (tasks, .err "Task not found") ∧
    deleteTask tasks taskId = (tasks, .err "Task not found") := by
  have hfalse : ∀ t ∈ tasks, (t.id == taskId) = false := fun t ht =>
    beq_eq_false_iff_ne.mpr (h t ht)
  constructor
  · have hidx : findTaskIndex tasks taskId = none :=
      findIndexFrom_eq_none _ tasks 0 hfalse
    simp [updateTask, hidx]
  · have hany : tasks.any (fun t => t.id == taskId) = false := by
      simp only [List.any_eq_false]
      intro t ht
      simp [hfalse t ht]
    simp [deleteTask, hany]

theorem updateDelete_missing_id_noop_witness :
    updateTask [sampleTask] "nope" (.patch {}) =
      ([sampleTask], .err "Task not found") ∧
    deleteTask [sampleTask] "nope" = ([sampleTask], .err "Task not found") :=
  updateDelete_missing_id_noop [sampleTask] "nope" (.patch {}) (by decide)

/-- C3 counterexample.  A patch that itself contains an `id` field: the
successful update returns (and stores) a record whose `id` differs from the
original record's id, so `id` is *not* preserved verbatim when the patch
contains it. -/
theorem updateTask_patch_overrides_id_cex :
    updateTask [sampleTask] "t1" (.patch { id? := some "evil" }) =
      ([{ sampleTask with id := "evil" }],
        .ok { sampleTask with id := "evil" }) ∧
    ¬ ({ sampleTask with id := "evil" } : Task).id = sampleTask.id := by
  decide

/-- C3 amended.  For a successful `update(id, patch)` whose patch does not
itself contain `id` or `createdAt` fields, the resulting record keeps the
original record's `id` and `createdAt` verbatim, and the record keeps its
position (the new collection is the old one with the record replaced in
place). -/
theorem updateTask_frame (tasks : List Task) (taskId : String) (p : TaskPatch)
    (tasks' : List Task) (t' : Task)
    (hid : p.id? = none) (hca : p.createdAt? = none)
    (h : updateTask tasks taskId (.patch p) = (tasks', .ok t')) :
    ∃ i old, findTaskIndex tasks taskId = some i ∧ tasks[i]? = some old ∧
      t'.id = old.id ∧ t'.createdAt = old.createdAt ∧
      tasks' = tasks.set i t' := by
  simp only [updateTask] at h
  split at h
  · exact absurd h (by simp)
  · rename_i i heq
    split at h
    · exact absurd h (by simp)
    · rename_i old heq2
      split at h
      · simp only [Prod.mk.injEq, TaskResult.ok.injEq] at h
        obtain ⟨h1, h2⟩ := h
        refine ⟨i, old, heq, heq2, ?_, ?_, by rw [← h1, h2]⟩
        · rw [← h2]; simp [applyUpdates, mergePatch, hid]
        · rw [← h2]; simp [applyUpdates, mergePatch, hca]
      · exact absurd h (by simp)

theorem updateTask_frame_witness :
    ∃ i old, findTaskIndex [sampleTask] "t1" = some i ∧
      [sampleTask][i]? = some old ∧
      ({ sampleTask with title := "New" } : Task).id = old.id ∧
      ({ sampleTask with title := "New" } : Task).createdAt = old.createdAt ∧
      [{ sampleTask with title := "New" }] =
        [sampleTask].set i { sampleTask with title := "New" } :=
  updateTask_frame [sampleTask] "t1" { title? := some "New" }
    [{ sampleTask with title := "New" }] { sampleTask with title := "New" }
    rfl rfl (by decide)

/-- C2 counterexample.  A draft that supplies an `id`: the created record's
id is the draft's `"caller-id"`, not the fresh `"fresh-1"` — `addTask`
spreads the draft *after* writing the fresh id, so a caller-supplied id
wins. -/
theorem addTask_draft_id_cex :
    addTask "fresh-1" 5 [] draftWithId = ([callerIdTask], .ok callerIdTask) ∧
    callerIdTask.id = "caller-id" ∧
    draftWithId.id? = some "caller-id" ∧
    ¬ ("caller-id" : String) = "fresh-1" := by decide

/-- C2 amended.  Every record created by a successful add has the
manager-assigned current timestamp and `completed = false` (even when the
draft supplies `createdAt` or `completed`); its id is the fresh
manager-assigned one whenever the draft supplies no `id`, but a
draft-supplied `id` is taken verbatim. -/
theorem addTask_manager_fields (freshId : String) (now : Int)
    (tasks : List Task) (draft : TaskDraft) (tasks' : List Task) (t : Task)
    (h : addTask freshId now tasks draft = (tasks', .ok t)) :
    t.createdAt = now ∧ t.completed = false ∧
    t.id = draft.id?.getD freshId := by
  simp only [addTask] at h
  by_cases he : (validateTask (some (buildNewTask freshId now draft))).isEmpty
  · rw [if_pos he] at h
    cases hr : rawToTask (buildNewTask freshId now draft) with
    | none => rw [hr] at h; exact absurd h (by simp)
    | some t0 =>
      rw [hr] at h
      simp only [Prod.mk.injEq, TaskResult.ok.injEq] at h
      obtain ⟨-, h2⟩ := h
      subst h2
      simp only [rawToTask, buildNewTask] at hr
      cases hti : draft.title? with
      | none => rw [hti] at hr; exact absurd hr (by simp)
      | some ti =>
        rw [hti] at hr
        cases hp : draft.priority? with
        | none => rw [hp] at hr; exact absurd hr (by simp)
        | some pstr =>
          rw [hp] at hr
          obtain ⟨pr, -, hfa⟩ := Option.map_eq_some'.mp hr
          rw [← hfa]
          exact ⟨rfl, rfl, rfl⟩
  · rw [if_neg he] at h
    exact absurd h (by simp)

theorem sortTasks_stable_spec_witness :
    sortTasks [sampleTask, sampleTask2] .created .asc =
      [sampleTask, sampleTask2] := by
  have h := sortTasks_stable_spec [sampleTask, sampleTask2] .created .asc
  exact h.2.2.2 (by decide)

theorem addTask_manager_fields_witness :
    ({ id := "fresh-9", title := "A", description := none, priority := .Low,
       completed := false, createdAt := 7 } : Task).createdAt = 7 ∧
    ({ id := "fresh-9", title := "A", description := none, priority := .Low,
       completed := false, createdAt := 7 } : Task).completed = false ∧
    ({ id := "fresh-9", title := "A", description := none, priority := .Low,
       completed := false, createdAt := 7 } : Task).id =
      ({ title? := some "A", priority? := some "Low",
         completed? := some true,
         createdAt? := some 99 } : TaskDraft).id?.getD "fresh-9" :=
  addTask_manager_fields "fresh-9" 7 []
    { title? := some "A", priority? := some "Low",
      completed? := some true, createdAt? := some 99 }
    [{ id := "fresh-9", title := "A", description := none, priority := .Low,
       completed := false, createdAt := 7 }]
    { id := "fresh-9", title := "A", description := none, priority := .Low,
      completed := false, createdAt := 7 }
    (by decide)

/-! ## Validator claims -/

theorem mem_ite_singleton {c : Prop} [Decidable c] {m m' : String} :
    (m ∈ if c then [m'] else ([] : List String)) ↔ (c ∧ m = m') := by
  split_ifs with hc <;> simp [hc]

theorem mem_ite_nil_singleton {c : Prop} [Decidable c] {m m' : String} :
    (m ∈ if c then ([] : List String) else [m']) ↔ (¬ c ∧ m = m') := by
  split_ifs with hc <;> simp [hc]

/-- C4 counterexample.  A title of 101 spaces followed by one letter:
its trimmed length is 1 (within the bound), yet `validateTask` reports the
"title too long" error — the source compares the *untrimmed* length. -/
theorem validateTask_trim_cex :
    (trimChars longPaddedTitle.data).length ≤ 100 ∧
    "Title must be 100 characters or less" ∈
      validateTask (some paddedTitleRaw) := by decide

/-- C4 amended.  For every record whose title is a string, the
"title too long" error is reported exactly when the title is non-empty and
its *untrimmed* length exceeds 100 characters. -/
theorem validateTask_title_too_long_iff (r : RawTask) (s : String)
    (h : r.title? = some s) :
    ("Title must be 100 characters or less" ∈ validateTask (some r)) ↔
      (¬ s.data = [] ∧ s.data.length > 100) := by
  obtain ⟨rid, rt, rd, rp, rc, rca⟩ := r
  dsimp only at h
  subst h
  have h1 : ¬ ("Title must be 100 characters or less" : String) =
      "Title is required and must be a non-empty string" := by decide
  have h2 : ¬ ("Title must be 100 characters or less" : String) =
      "Description must be 500 characters or less" := by decide
  have h3 : ¬ ("Title must be 100 characters or less" : String) =
      "Priority must be High, Medium, or Low" := by decide
  have h4 : ¬ ("Title must be 100 characters or less" : String) =
      "Completed must be a boolean value" := by decide
  cases rd <;> cases rp <;> cases rc <;>
    simp [validateTask, List.mem_append, mem_ite_singleton,
      mem_ite_nil_singleton, h1, h2, h3, h4]

theorem validateTask_title_too_long_iff_witness :
    ("Title must be 100 characters or less" ∈
      validateTask (some longPlainRaw)) ↔
      (¬ (String.mk (List.replicate 101 'a')).data = [] ∧
        (String.mk (List.replicate 101 'a')).data.length > 100) :=
  validateTask_title_too_long_iff longPlainRaw
    (String.mk (List.replicate 101 'a')) rfl

/-- C10.  A record whose `completed` field is absent always gets the
"completed must be a boolean" error (`typeof undefined !== "boolean"`), so
the error set is non-empty and the record never passes validation. -/
theorem validateTask_completed_absent (r : RawTask)
    (h : r.completed? = none) :
    "Completed must be a boolean value" ∈ validateTask (some r) ∧
    validateTask (some r) ≠ [] := by
  have hm : "Completed must be a boolean value" ∈ validateTask (some r) := by
    obtain ⟨rid, rt, rd, rp, rc, rca⟩ := r
    dsimp only at h
    subst h
    simp [validateTask, List.mem_append]
  exact ⟨hm, List.ne_nil_of_mem hm⟩

theorem validateTask_completed_absent_witness :
    "Completed must be a boolean value" ∈ validateTask (some {}) ∧
    validateTask (some {}) ≠ [] :=
  validateTask_completed_absent {} rfl

/-! ## Filter claims -/

theorem filterStep_ok (term : List Nat) (l : List RawTask)
    (h : ∀ t ∈ l, t.title? ≠ none) :
    ∃ l', filterStep term l = .ok l' := by
  induction l with
  | nil => exact ⟨[], rfl⟩
  | cons t ts ih =>
    obtain ⟨l', hl'⟩ := ih (fun t' ht' => h t' (List.mem_cons_of_mem _ ht'))
    cases hti : t.title? with
    | none => exact absurd hti (h t (List.mem_cons_self t ts))
    | some ti =>
      rcases hp : filterPred term t with _ | keep
      · simp [filterPred, hti] at hp
      · refine ⟨if keep then t :: l' else l', ?_⟩
        simp only [filterStep, hp, hl']
        rfl

/-- C5 counterexample.  A non-empty search term over an array containing a
record without a `title` field: the filter *throws* (reading
`.toLowerCase` of `undefined`) instead of returning the input unchanged. -/
theorem filterTasks_throws_cex :
    filterTasks (.arr [{}]) (some "a") = .error () := by rfl

/-- C5 amended.  `filterTasks` returns the input unchanged, without fault,
for an empty or absent search term and for non-array input, and it never
faults on an array whose records all carry a `title` field (a record lacking
only `description` is handled safely); but with a non-empty search term it
faults on an array containing a record that lacks `title`. -/
theorem filterTasks_safe_amended :
    (∀ (input : FilterInput) (searchTerm : Option String),
      strFalsy searchTerm = true → filterTasks input searchTerm = .ok input) ∧
    (∀ searchTerm : Option String,
      filterTasks .nonArray searchTerm = .ok .nonArray) ∧
    (∀ (l : List RawTask) (searchTerm : Option String),
      (∀ t ∈ l, t.title? ≠ none) →
      ∃ l', filterTasks (.arr l) searchTerm = .ok (.arr l')) := by
  refine ⟨?_, ?_, ?_⟩
  · intro input searchTerm hf
    simp [filterTasks, hf]
  · intro searchTerm
    by_cases hf : strFalsy searchTerm <;> simp [filterTasks, hf]
  · intro l searchTerm h
    by_cases hf : strFalsy searchTerm = true
    · exact ⟨l, by simp [filterTasks, hf]⟩
    · obtain ⟨l', hl'⟩ :=
        filterStep_ok (trimNats (lowerNats ((searchTerm.getD "").data))) l h
      exact ⟨l', by simp [filterTasks, hf, hl', Except.map]⟩

theorem filterTasks_safe_amended_witness :
    filterTasks (.arr []) none = .ok (.arr []) ∧
    filterTasks .nonArray (some "x") = .ok .nonArray ∧
    (∃ l', filterTasks (.arr [sampleTask.toRaw]) (some "zz") =
      .ok (.arr l')) :=
  ⟨filterTasks_safe_amended.1 (.arr []) none rfl,
   filterTasks_safe_amended.2.1 (some "x"),
   filterTasks_safe_amended.2.2 [sampleTask.toRaw] (some "zz") (by decide)⟩

/-! ## Persistence claims -/

theorem taskFromJson_taskToJson (t : Task) :
    taskFromJson (taskToJson t) = some t := by
  obtain ⟨i, ti, d, p, c, n⟩ := t
  cases d <;> cases p <;>
    simp [taskToJson, taskFromJson, jLookup, priorityToString,
      priorityFromString]

/-- C7.  Saving the serialization of any record sequence succeeds, loading
it back yields exactly the stored array (same order), and decoding recovers
every record with every field intact: the save/load round trip is the
identity on valid record sequences. -/
theorem saveLoad_roundtrip (ts : List Task) (store : Store) :
    (saveTasks (.arr (ts.map taskToJson)) store).1 = true ∧
    loadTasks (saveTasks (.arr (ts.map taskToJson)) store).2 =
      ts.map taskToJson ∧
    decodeTasks (ts.map taskToJson) = some ts := by
  refine ⟨rfl, rfl, ?_⟩
  induction ts with
  | nil => rfl
  | cons t ts ih => simp [decodeTasks, taskFromJson_taskToJson, ih]

/-! ## Statistics claims -/

theorem foldl_statsStep (ts : List Task) (acc : TaskStats) :
    ts.foldl statsStep acc =
      { total := acc.total + ts.length
        completed := acc.completed + (ts.filter (fun t => t.completed)).length
        pending := acc.pending + (ts.filter (fun t => !t.completed)).length
        highPriority := acc.highPriority +
          (ts.filter (fun t => t.priority == Priority.High)).length
        mediumPriority := acc.mediumPriority +
          (ts.filter (fun t => t.priority == Priority.Medium)).length
        lowPriority := acc.lowPriority +
          (ts.filter (fun t => t.priority == Priority.Low)).length
        completionRate := acc.completionRate } := by
  induction ts generalizing acc with
  | nil =>
    obtain ⟨a1, a2, a3, a4, a5, a6, a7⟩ := acc
    simp
  | cons t ts ih =>
    rw [List.foldl_cons, ih]
    obtain ⟨a1, a2, a3, a4, a5, a6, a7⟩ := acc
    obtain ⟨ti, tt, td, tp, tc, tca⟩ := t
    cases tc <;> cases tp <;>
      simp [statsStep, List.filter_cons] <;> omega

/-- C9.  `stats` returns the total, completed, pending and per-priority
counts of the input; the completion rate is `completed / total × 100` when
the total is positive and `0` when the total is zero (no division fault);
in particular `stats([])` is the all-zero record. -/
theorem getTaskStats_spec (ts : List Task) :
    (getTaskStats ts).total = ts.length ∧
    (getTaskStats ts).completed =
      (ts.filter (fun t => t.completed)).length ∧
    (getTaskStats ts).pending =
      (ts.filter (fun t => !t.completed)).length ∧
    (getTaskStats ts).highPriority =
      (ts.filter (fun t => t.priority == Priority.High)).length ∧
    (getTaskStats ts).mediumPriority =
      (ts.filter (fun t => t.priority == Priority.Medium)).length ∧
    (getTaskStats ts).lowPriority =
      (ts.filter (fun t => t.priority == Priority.Low)).length ∧
    (0 < ts.length → (getTaskStats ts).completionRate =
      ((ts.filter (fun t => t.completed)).length : ℚ) /
        (ts.length : ℚ) * 100) ∧
    (ts.length = 0 → (getTaskStats ts).completionRate = 0) ∧
    getTaskStats [] = ⟨0, 0, 0, 0, 0, 0, 0⟩ := by
  simp only [getTaskStats, foldl_statsStep]
  refine ⟨by simp, by simp, by simp, by simp, by simp, by simp, ?_, ?_, rfl⟩
  · intro hlen
    simp [hlen]
  · intro hlen
    simp [hlen]

theorem getTaskStats_spec_witness :
    (getTaskStats [sampleTask2]).completionRate =
      (([sampleTask2].filter (fun t => t.completed)).length : ℚ) /
        (([sampleTask2] : List Task).length : ℚ) * 100 ∧
    (getTaskStats ([] : List Task)).completionRate = 0 :=
  ⟨(getTaskStats_spec [sampleTask2]).2.2.2.2.2.2.1 (by decide),
   (getTaskStats_spec []).2.2.2.2.2.2.2.1 rfl⟩

end AgileTasks
